import Mathlib

/-!
Verification of the lagomorph affine registration core.

This file gives a shallow embedding, in Lean 4, of the parts of
`lagomorph/affine/__init__.py` and `lagomorph/deform.py` that the
specification talks about, and proves (or refutes) the spec's claims
about them.  Floating point tensors are modelled by exact rationals
(`ℚ`); torch's batched tensor operations, which act independently on
each sample of the leading batch dimension, are modelled per sample,
with batches as lists.
-/

namespace Lagomorph

/-- A 2×2 matrix with entries indexed row-major, as sliced by
`A[:,i,j]` in the source. -/
structure Mat2 (α : Type) where
  e00 : α
  e01 : α
  e10 : α
  e11 : α
deriving DecidableEq, Repr

/-- A 2-vector, one batch sample of a translation tensor `T`. -/
structure Vec2 (α : Type) where
  x0 : α
  x1 : α
deriving DecidableEq, Repr

/-- A 3×3 matrix with entries indexed row-major. -/
structure Mat3 (α : Type) where
  e00 : α
  e01 : α
  e02 : α
  e10 : α
  e11 : α
  e12 : α
  e20 : α
  e21 : α
  e22 : α
deriving DecidableEq, Repr

/-- A 3-vector, one batch sample of a translation tensor `T`. -/
structure Vec3 (α : Type) where
  x0 : α
  x1 : α
  x2 : α
deriving DecidableEq, Repr

/-- `det_2x2` (affine/__init__.py:66): `A[:,0,0]*A[:,1,1] - A[:,0,1]*A[:,1,0]`,
per batch sample. -/
def det_2x2 (A : Mat2 ℚ) : ℚ :=
  A.e00 * A.e11 - A.e01 * A.e10

/-- `invert_2x2` (affine/__init__.py:69): the stacked tensor
`(A[:,1,1], -A[:,0,1], -A[:,1,0], A[:,0,0])` viewed as a 2×2 matrix and
divided entrywise by the determinant.  No singularity check is made, in
line with the source. -/
def invert_2x2 (A : Mat2 ℚ) : Mat2 ℚ :=
  let det := det_2x2 A
  { e00 := A.e11 / det
    e01 := -A.e01 / det
    e10 := -A.e10 / det
    e11 := A.e00 / det }

/-- `minor` (affine/__init__.py:76) specialised to a 3×3 input: the
`torch.cat`/`narrow` pair deletes row `i` and column `j`, leaving a 2×2
minor.  We enumerate the nine cases of the deletion explicitly. -/
def minor (A : Mat3 ℚ) (i j : Fin 3) : Mat2 ℚ :=
  match i, j with
  | 0, 0 => ⟨A.e11, A.e12, A.e21, A.e22⟩
  | 0, 1 => ⟨A.e10, A.e12, A.e20, A.e22⟩
  | 0, 2 => ⟨A.e10, A.e11, A.e20, A.e21⟩
  | 1, 0 => ⟨A.e01, A.e02, A.e21, A.e22⟩
  | 1, 1 => ⟨A.e00, A.e02, A.e20, A.e22⟩
  | 1, 2 => ⟨A.e00, A.e01, A.e20, A.e21⟩
  | 2, 0 => ⟨A.e01, A.e02, A.e11, A.e12⟩
  | 2, 1 => ⟨A.e00, A.e02, A.e10, A.e12⟩
  | 2, 2 => ⟨A.e00, A.e01, A.e10, A.e11⟩

/-- `invert_3x3` (affine/__init__.py:83): the nine signed minors are
stacked row-major, viewed as a 3×3 matrix and transposed (so entry
`(i,j)` of `cofactors` below is the cofactor `C_ji`); the determinant is
then expanded along the first row of `A` using the transposed stack
(`cofactors[:,k,0]` is `C_0k`), and the result is the transposed stack
divided entrywise by that determinant. -/
def invert_3x3 (A : Mat3 ℚ) : Mat3 ℚ :=
  let c00 :=  det_2x2 (minor A 0 0)
  let c01 := -det_2x2 (minor A 0 1)
  let c02 :=  det_2x2 (minor A 0 2)
  let c10 := -det_2x2 (minor A 1 0)
  let c11 :=  det_2x2 (minor A 1 1)
  let c12 := -det_2x2 (minor A 1 2)
  let c20 :=  det_2x2 (minor A 2 0)
  let c21 := -det_2x2 (minor A 2 1)
  let c22 :=  det_2x2 (minor A 2 2)
  -- after `.transpose(1,2)`, entry (i,j) of the stacked tensor is c_ji
  let det := c00 * A.e00 + c01 * A.e01 + c02 * A.e02
  { e00 := c00 / det, e01 := c10 / det, e02 := c20 / det
    e10 := c01 / det, e11 := c11 / det, e12 := c21 / det
    e20 := c02 / det, e21 := c12 / det, e22 := c22 / det }

/-- Matrix–vector product `torch.matmul(A, T.unsqueeze(2)).squeeze(2)`
for one 2×2 sample. -/
def matvec2 (A : Mat2 ℚ) (T : Vec2 ℚ) : Vec2 ℚ :=
  ⟨A.e00 * T.x0 + A.e01 * T.x1, A.e10 * T.x0 + A.e11 * T.x1⟩

/-- Matrix–vector product for one 3×3 sample. -/
def matvec3 (A : Mat3 ℚ) (T : Vec3 ℚ) : Vec3 ℚ :=
  ⟨A.e00 * T.x0 + A.e01 * T.x1 + A.e02 * T.x2,
   A.e10 * T.x0 + A.e11 * T.x1 + A.e12 * T.x2,
   A.e20 * T.x0 + A.e21 * T.x1 + A.e22 * T.x2⟩

/-- Negation of a 2-vector. -/
def neg2 (T : Vec2 ℚ) : Vec2 ℚ := ⟨-T.x0, -T.x1⟩

/-- Negation of a 3-vector. -/
def neg3 (T : Vec3 ℚ) : Vec3 ℚ := ⟨-T.x0, -T.x1, -T.x2⟩

/-- The determinant a 3×3 sample is given inside `invert_3x3`
(affine/__init__.py:100): the first-row cofactor expansion
`cofactors[:,0,0]*A[:,0,0] + cofactors[:,1,0]*A[:,0,1] + cofactors[:,2,0]*A[:,0,2]`
read off the transposed cofactor stack. -/
def det_3x3_src (A : Mat3 ℚ) : ℚ :=
  det_2x2 (minor A 0 0) * A.e00
    - det_2x2 (minor A 0 1) * A.e01
    + det_2x2 (minor A 0 2) * A.e02

/-- One batch sample of an affine parameter pair `(A, T)`.  The source's
`affine_inverse` dispatches on the (batch-wide) dimension `A.shape[1]`,
asserted to be 2 or 3; the tag of this sum records that dimension. -/
inductive AffinePair where
  | d2 : Mat2 ℚ → Vec2 ℚ → AffinePair
  | d3 : Mat3 ℚ → Vec3 ℚ → AffinePair
deriving DecidableEq, Repr

/-- The determinant of the linear part of an affine pair; `A` is
invertible exactly when this is nonzero. -/
def AffinePair.det : AffinePair → ℚ
  | .d2 A _ => det_2x2 A
  | .d3 A _ => det_3x3_src A

/-- `affine_inverse` (affine/__init__.py:105) on one batch sample:
`(A, T) ↦ (A⁻¹, -A⁻¹ T)`, with `A⁻¹` computed by `invert_2x2` or
`invert_3x3` according to the dimension. -/
def affine_inverse : AffinePair → AffinePair
  | .d2 A T =>
      let Ainv := invert_2x2 A
      .d2 Ainv (neg2 (matvec2 Ainv T))
  | .d3 A T =>
      let Ainv := invert_3x3 A
      .d3 Ainv (neg3 (matvec3 Ainv T))

/-- Batched `affine_inverse`: torch applies the closed form to each
sample of the leading batch dimension independently. -/
def affine_inverse_batch (ps : List AffinePair) : List AffinePair :=
  ps.map affine_inverse

/-- Batched `invert_3x3`. -/
def invert_3x3_batch (As : List (Mat3 ℚ)) : List (Mat3 ℚ) :=
  As.map invert_3x3

/-! ### Specification-side matrix algebra, for the refinement claim about
`invert_3x3`.  These follow the spec's words (cofactor
`C_ij = (-1)^(i+j)·det(minor_ij)`, transpose of the cofactor matrix over
the determinant) rather than the source's stacked-tensor encoding; the
determinant here is the six-term Leibniz expansion, independent of the
source's first-row cofactor expansion. -/

/-- The spec's cofactor `C_ij = (-1)^(i+j) · det(minor_ij)`. -/
def cofactor_spec (A : Mat3 ℚ) (i j : Fin 3) : ℚ :=
  (-1 : ℚ) ^ ((i : ℕ) + (j : ℕ)) * det_2x2 (minor A i j)

/-- The Leibniz (six-term) determinant of a 3×3 matrix. -/
def det3_leibniz (A : Mat3 ℚ) : ℚ :=
  A.e00 * A.e11 * A.e22 + A.e01 * A.e12 * A.e20 + A.e02 * A.e10 * A.e21
    - A.e02 * A.e11 * A.e20 - A.e01 * A.e10 * A.e22 - A.e00 * A.e12 * A.e21

/-- The spec's description of 3×3 inversion: entry `(i,j)` of the
inverse is `C_ji / det` (transpose of the cofactor matrix divided by the
determinant). -/
def invert_3x3_spec (A : Mat3 ℚ) : Mat3 ℚ :=
  { e00 := cofactor_spec A 0 0 / det3_leibniz A
    e01 := cofactor_spec A 1 0 / det3_leibniz A
    e02 := cofactor_spec A 2 0 / det3_leibniz A
    e10 := cofactor_spec A 0 1 / det3_leibniz A
    e11 := cofactor_spec A 1 1 / det3_leibniz A
    e12 := cofactor_spec A 2 1 / det3_leibniz A
    e20 := cofactor_spec A 0 2 / det3_leibniz A
    e21 := cofactor_spec A 1 2 / det3_leibniz A
    e22 := cofactor_spec A 2 2 / det3_leibniz A }

/-! ### Mathlib bridges for the affine-inversion involution -/

/-- View a `Mat2` sample as a Mathlib matrix. -/
def toM2 (A : Mat2 ℚ) : Matrix (Fin 2) (Fin 2) ℚ :=
  !![A.e00, A.e01; A.e10, A.e11]

/-- View a `Mat3` sample as a Mathlib matrix. -/
def toM3 (A : Mat3 ℚ) : Matrix (Fin 3) (Fin 3) ℚ :=
  !![A.e00, A.e01, A.e02; A.e10, A.e11, A.e12; A.e20, A.e21, A.e22]

/-- View a 2-vector sample as a Mathlib vector. -/
def toV2 (T : Vec2 ℚ) : Fin 2 → ℚ := ![T.x0, T.x1]

/-- View a 3-vector sample as a Mathlib vector. -/
def toV3 (T : Vec3 ℚ) : Fin 3 → ℚ := ![T.x0, T.x1, T.x2]

/-! ### Rotation generator (`rotation_exp_map`, affine/__init__.py:121)

The 2D branch (`v.dim() == 1`) builds, per batch sample, the stacked
tensor `(cos v, -sin v, sin v, cos v)` viewed as a 2×2 matrix.  The 3D
branch raises `NotImplementedError` and other input ranks raise; the
claims only concern the 2D branch, i.e. a 1-D tensor of angles, which we
model as a list of real angles. -/

/-- One sample of `rotation_exp_map` on a 1-D (2D-rotation) input. -/
noncomputable def rotation_exp_map (v : ℝ) : Mat2 ℝ :=
  { e00 := Real.cos v
    e01 := -Real.sin v
    e10 := Real.sin v
    e11 := Real.cos v }

/-- The batched 2D branch of `rotation_exp_map`: torch builds the
rotation matrices independently per angle in the input vector. -/
noncomputable def rotation_exp_map_batch (vs : List ℝ) : List (Mat2 ℝ) :=
  vs.map rotation_exp_map

/-- `A.transpose(1,2)` for one 2×2 sample. -/
def mat2_transpose {α : Type} (A : Mat2 α) : Mat2 α :=
  ⟨A.e00, A.e10, A.e01, A.e11⟩

/-- `torch.matmul` for one 2×2 sample. -/
def mat2_mul {α : Type} [Mul α] [Add α] (A B : Mat2 α) : Mat2 α :=
  { e00 := A.e00 * B.e00 + A.e01 * B.e10
    e01 := A.e00 * B.e01 + A.e01 * B.e11
    e10 := A.e10 * B.e00 + A.e11 * B.e10
    e11 := A.e10 * B.e01 + A.e11 * B.e11 }

/-- `torch.eye(2)` as one sample. -/
def mat2_id : Mat2 ℝ := ⟨1, 0, 0, 1⟩

/-! ### Streaming average (`batch_average`, affine/__init__.py:9)

A dataloader item (one batch) is a list of samples, each sample a vector
of values; `img.sum(dim=0)` sums the samples pointwise and
`img.shape[dim]` (with the default `dim=0`) is the number of samples.
float64 accumulation is modelled exactly over `ℚ`, and the final cast
back to the input dtype is the identity in this model. -/

/-- Pointwise sum of two equally-shaped vectors. -/
def vec_add (a b : List ℚ) : List ℚ := List.zipWith (· + ·) a b

/-- `img.sum(dim=0)`: fold the samples of one batch pointwise. -/
def batch_sum (batch : List (List ℚ)) : List ℚ :=
  match batch with
  | [] => []
  | x :: xs => xs.foldl vec_add x

/-- The loop body of `batch_average`: state is `(avg, sumsizes)`.  When
`avg` is `None` the batch sum is installed as-is (affine/__init__.py:25);
otherwise the weighted update
`avg*(sumsizes/(sumsizes+sz)) + avi/(sumsizes+sz)` runs pointwise, and
`sumsizes` then grows by `sz`. -/
def batch_average_step (state : Option (List ℚ) × ℕ) (img : List (List ℚ)) :
    Option (List ℚ) × ℕ :=
  let sz := img.length
  let avi := batch_sum img
  let sumsizes := state.2
  match state.1 with
  | none => (some avi, sumsizes + sz)
  | some avg =>
      (some (vec_add
          (avg.map (fun a => a * ((sumsizes : ℚ) / ((sumsizes : ℚ) + (sz : ℚ)))))
          (avi.map (fun a => a / ((sumsizes : ℚ) + (sz : ℚ))))),
        sumsizes + sz)

/-- `batch_average` (affine/__init__.py:9) over a finite stream of
batches, with the default `dim=0`. -/
def batch_average (batches : List (List (List ℚ))) : Option (List ℚ) :=
  (batches.foldl batch_average_step (none, 0)).1

/-- The running mean the spec describes: total pointwise sum of all
samples divided by the total number of samples. -/
def stream_mean (batches : List (List (List ℚ))) : List ℚ :=
  (batch_sum (batches.flatten)).map
    (fun a => a / ((batches.flatten).length : ℚ))

/-! ### Grid geometry resolution (`regrid`, affine/__init__.py:186)

`regrid` resolves `(shape, origin, spacing)` from the optional
arguments per the nested `if` ladder at lines 233–254, then asserts
each resolved list has one entry per spatial axis (lines 256–265).
Arguments are modelled in list form (the form every claim exercises);
the input image enters only through its spatial sizes `I.shape[2:]`. -/

/-- The length asserts at affine/__init__.py:263–265. -/
def regrid_check (inshape sh : List ℕ) (og sp : List ℚ) :
    Except String (List ℕ × List ℚ × List ℚ) :=
  if sh.length = inshape.length ∧ og.length = inshape.length
      ∧ sp.length = inshape.length then
    .ok (sh, og, sp)
  else
    .error "AssertionError"

/-- The argument-resolution ladder of `regrid`
(affine/__init__.py:233–254), returning either the resolved
`(shape, origin, spacing)` or the exception the source raises. -/
def regrid_resolve (inshape : List ℕ) (shape : Option (List ℕ))
    (origin spacing : Option (List ℚ)) :
    Except String (List ℕ × List ℚ × List ℚ) :=
  match shape, origin, spacing with
  | none, none, none =>
      .error "ValueError: At least one of shape, origin, or spacing required"
  | none, none, some _ => .error "NotImplementedError"
  | none, some _, none => .error "NotImplementedError"
  | none, some _, some _ =>
      .error "ValueError: Shape is required if specifying origin and spacing"
  | some sh, none, none =>
      let og := inshape.map (fun (s : ℕ) => ((s : ℚ) - 1) * (1 / 2))
      let sp := List.zipWith (fun (sI s : ℕ) => ((sI : ℚ) - 1) / ((s : ℚ) - 1))
        inshape sh
      regrid_check inshape sh og sp
  | some sh, none, some sp =>
      let og := inshape.map (fun (s : ℕ) => ((s : ℚ) - 1) * (1 / 2))
      regrid_check inshape sh og sp
  | some _, some _, none => .error "NotImplementedError"
  | some _, some _, some _ => .error "NotImplementedError"

/-! ### `RegridFunction` forward/backward displacement scaling
(affine/__init__.py:150–185)

The CUDA kernels `regrid_forward` and `regrid_backward` are external
sampling primitives (spec §1); their outputs enter the model as
arguments.  A resampled field is channel-major: one flattened list of
values per channel.  `ctx.spacing_tensor` is `1./spacing` viewed as
`(1, dim, 1, …)`, so `.mul_` multiplies every value of channel `d` by
`1/spacing[d]`. -/

/-- `ctx.spacing_tensor = 1./torch.Tensor(spacing)` per axis. -/
def spacing_tensor (spacing : List ℚ) : List ℚ :=
  spacing.map (fun s => 1 / s)

/-- Broadcast `.mul_` of a per-channel factor over a channel-major
field. -/
def mul_channelwise (factors : List ℚ) (f : List (List ℚ)) :
    List (List ℚ) :=
  List.zipWith (fun c ch => ch.map (fun x => c * x)) factors f

/-- `RegridFunction.forward` after the external kernel call: `reg` is
the kernel's resampled output, `dim` the spatial dimension
`len(I.shape)-2` and `nchan` the channel count `I.shape[1]`.  With
`displacement` set, a wrong channel count raises and otherwise the
output is rescaled by `spacing_tensor` (affine/__init__.py:167–173). -/
def RegridFunction_forward (dim nchan : ℕ) (reg : List (List ℚ))
    (spacing : List ℚ) (displacement : Bool) :
    Except String (List (List ℚ)) :=
  if displacement then
    if nchan ≠ dim then
      .error "ValueError: Incorrect num channels for regridding displacement"
    else
      .ok (mul_channelwise (spacing_tensor spacing) reg)
  else
    .ok reg

/-- `RegridFunction.backward` after the external kernel call: `d_I` is
the kernel's input-grid gradient, rescaled by the saved
`ctx.spacing_tensor` when `ctx.displacement` was set
(affine/__init__.py:183–184). -/
def RegridFunction_backward (d_I : List (List ℚ)) (spacing : List ℚ)
    (displacement : Bool) : List (List ℚ) :=
  if displacement then mul_channelwise (spacing_tensor spacing) d_I
  else d_I

/-! ### `interp_image` batch-broadcast dispatch (deform.py:89)

Only the array shapes decide which kernel runs, so the model works on
shapes: an image batch shape is `N :: spatial` (NWH(D) order) and a
deformation batch shape is `N :: C :: spatial` (NCWH(D) order). -/

/-- Which sampling kernel a successful `interp_image` call reaches. -/
inductive InterpKernel where
  | plainKernel : InterpKernel
  | bcastIKernel : InterpKernel
deriving DecidableEq, Repr

/-- The dimension dispatch shared by `interp_image_kernel`
(deform.py:22–37): 2D launches the kernel, 3D is `NotImplementedError`,
anything else raises. -/
def interp_kernel_dim_dispatch (dim : ℕ) (k : InterpKernel) :
    Except String InterpKernel :=
  if dim = 2 then .ok k
  else if dim = 3 then .error "NotImplementedError: not implemented"
  else .error "Exception: Unsupported dimension"

/-- `interp_image_kernel_bcastI` (deform.py:66): asserts the image
batch is a singleton, then dispatches on dimension. -/
def interp_image_kernel_bcastI (nI dim : ℕ) : Except String InterpKernel :=
  if nI ≠ 1 then .error "AssertionError: First dimension of I must be 1"
  else interp_kernel_dim_dispatch dim .bcastIKernel

/-- `interp_image` (deform.py:89–115) at shape level: the rank and
channel asserts, then the batch-size dispatch.  The branch for a
singleton deformation batch against a non-singleton image batch calls
`interp_image_kernel_bcasth()` (deform.py:111), a name defined nowhere
in the package, so Python raises `NameError` there. -/
def interp_image (Ish hsh : List ℕ) : Except String InterpKernel :=
  let dim := Ish.length - 1
  if Ish.length + 1 ≠ hsh.length then
    .error "AssertionError: Dimension of I must be one less that of h"
  else if hsh.getD 1 0 ≠ dim then
    .error "AssertionError: h must have same number channels as dim"
  else
    let nI := Ish.getD 0 0
    let nh := hsh.getD 0 0
    if nI = 1 ∧ nh ≠ 1 then
      interp_image_kernel_bcastI nI dim
    else if nh = 1 ∧ nI ≠ 1 then
      .error "NameError: name interp_image_kernel_bcasth is not defined"
    else if nI = nh then
      interp_kernel_dim_dispatch dim .plainKernel
    else
      .error "AssertionError: Number non-broadcast image and deformation dimensions must match"

/-! ### `composeHV` (deform.py:170)

GPU arrays are mutable buffers passed by reference, so `composeHV` is
modelled against an explicit store: a list of fields, indexed by
position, with fresh allocations appended at the end.  A field is a
flattened list of values.  The external CUDA sampler behind `interp_vec`
(deform.py:117) writes only its `out` buffer; its value behaviour is an
arbitrary pure function `sample` of the two read buffers. -/

/-- One GPU buffer: a flattened array of values. -/
abbrev Field := List ℚ

/-- The allocation store: buffer `i` is the `i`-th entry. -/
abbrev Store := List Field

/-- `gpuarray.empty_like(h)`: a fresh buffer of `h`'s shape; its
uninitialised contents are modelled as zeros (they are fully overwritten
before being read). -/
def emptyLike (f : Field) : Field := f.map (fun _ => 0)

/-- In-place `xv *= dt`. -/
def scaleField (dt : ℚ) (f : Field) : Field := f.map (fun x => dt * x)

/-- Modelled from the spec: `multiply_add` comes from
`lagomorph.arithmetic`, which is not under src/.  Per spec §4.4 ("add
back `dt·v` to the sampled result") and its call sites, it adds `dt`
times its first argument into the buffer named by `out=`, writing
nothing else. -/
def multiply_add (v : Field) (dt : ℚ) (out : Field) : Field :=
  List.zipWith (fun a b => b + dt * a) v out

/-- `composeHV(h, v, dt, displacement, out=None)` (deform.py:170) as a
store transformer; `ih`/`iv` are the store indices of `h` and `v`.
The displacement branch allocates `out` and the copy `xv`, scales `xv`
in place, samples into `out` and then adds `dt·v` into `out`, returning
the final store and the index of the returned buffer.  The
`displacement=False` branch reads the local `xv` (deform.py:184), which
only the other branch assigns, so Python raises `UnboundLocalError`. -/
def composeHV (sample : Field → Field → Field) (σ : Store) (ih iv : ℕ)
    (dt : ℚ) (displacement : Bool) : Except String (Store × ℕ) :=
  let outi := σ.length
  let σ1 := σ ++ [emptyLike (σ.getD ih [])]
  if displacement then
    let xvi := σ1.length
    let σ2 := σ1 ++ [σ1.getD iv []]
    let σ3 := σ2.set xvi (scaleField dt (σ2.getD xvi []))
    let σ4 := σ3.set outi (sample (σ3.getD ih []) (σ3.getD xvi []))
    let σ5 := σ4.set outi (multiply_add (σ4.getD iv []) dt (σ4.getD outi []))
    .ok (σ5, outi)
  else
    .error "UnboundLocalError: local variable xv referenced before assignment"

/-! ### Atlas optimizer-step schedule (`affine_atlas`, affine/__init__.py:333–391)

Per epoch the minibatch loop keeps a counter `image_iters`; after each
minibatch it is incremented and, when it reaches `image_update_freq`,
one `image_optimizer.step()` runs and the counter resets (lines
369–378).  After the loop, a leftover positive counter triggers one
final step (lines 385–391).  With `image_update_freq == 0` the equality
test never fires (the counter is at least 1 there), leaving exactly the
final step.  Only the step count is modelled; state is
`(image_iters, steps so far)`. -/

/-- One minibatch's effect on `(image_iters, steps)` for a given
`image_update_freq` `k`. -/
def atlas_epoch_step (k : ℕ) (s : ℕ × ℕ) : ℕ × ℕ :=
  let iters := s.1 + 1
  if iters = k then (0, s.2 + 1) else (iters, s.2)

/-- The minibatch loop of one epoch over `M` minibatches. -/
def atlas_epoch_loop (M k : ℕ) : ℕ × ℕ :=
  (List.range M).foldl (fun s _ => atlas_epoch_step k s) (0, 0)

/-- Total `image_optimizer.step()` calls in one epoch of `M`
minibatches with `image_update_freq = k`, including the end-of-epoch
flush of a positive leftover counter. -/
def atlas_steps_per_epoch (M k : ℕ) : ℕ :=
  let s := atlas_epoch_loop M k
  if 0 < s.1 then s.2 + 1 else s.2

/-! ## Helper lemmas -/

/-- Reading a field below the original store length is unaffected by a
fresh allocation at the end. -/
theorem store_getD_append (τ : Store) (e : Field) (i : ℕ)
    (hi : i < τ.length) : (τ ++ [e]).getD i [] = τ.getD i [] := by
  simp [List.getD_eq_getElem?_getD, List.getElem?_append_left hi]

/-- Reading a field is unaffected by writing a different index. -/
theorem store_getD_set_ne (τ : Store) (j : ℕ) (f : Field) (i : ℕ)
    (hne : j ≠ i) : (τ.set j f).getD i [] = τ.getD i [] := by
  simp [List.getD_eq_getElem?_getD, List.getElem?_set_ne hne]

/-- Entry `i` of a channel scaled in place by `c`. -/
theorem map_mul_getD (c : ℚ) (ch : List ℚ) (i : ℕ) :
    (ch.map (fun x => c * x)).getD i 0 = c * ch.getD i 0 := by
  simp only [List.getD_eq_getElem?_getD, List.getElem?_map]
  cases ch[i]? <;> simp

/-- Entry `(d, i)` of a broadcast channelwise multiplication. -/
theorem mul_channelwise_getD (factors : List ℚ) (f : List (List ℚ))
    (d i : ℕ) (hd1 : d < factors.length) (hd2 : d < f.length) :
    ((mul_channelwise factors f).getD d []).getD i 0
      = factors.getD d 1 * ((f.getD d []).getD i 0) := by
  have hc := List.getElem?_eq_getElem hd1
  have hch := List.getElem?_eq_getElem hd2
  unfold mul_channelwise
  simp only [List.getD_eq_getElem?_getD, List.getElem?_zipWith, hc, hch]
  simpa using map_mul_getD (factors.get ⟨d, hd1⟩) (f.get ⟨d, hd2⟩) i

/-- With `image_update_freq = 0`, the in-loop equality test never fires,
so an epoch of `M` minibatches ends with counter `M` and no steps. -/
theorem atlas_epoch_loop_zero_freq (M : ℕ) :
    atlas_epoch_loop M 0 = (M, 0) := by
  induction M with
  | zero => rfl
  | succ n ih =>
      unfold atlas_epoch_loop at ih ⊢
      rw [List.range_succ, List.foldl_append, ih]
      simp [atlas_epoch_step]

/-- With `image_update_freq = k > 0`, after `M` minibatches the counter
is `M % k` and `M / k` optimizer steps have run. -/
theorem atlas_epoch_loop_pos_freq (M k : ℕ) (hk : 0 < k) :
    atlas_epoch_loop M k = (M % k, M / k) := by
  induction M with
  | zero => simp [atlas_epoch_loop]
  | succ n ih =>
      unfold atlas_epoch_loop at ih ⊢
      rw [List.range_succ, List.foldl_append, ih]
      simp only [List.foldl_cons, List.foldl_nil]
      unfold atlas_epoch_step
      have hd := Nat.div_add_mod n k
      by_cases h : n % k + 1 = k
      · rw [if_pos h]
        have h1 : (n + 1) % k = 0 := by
          have he : n + 1 = k * (n / k + 1) := by
            rw [Nat.mul_succ]; omega
          rw [he]; exact Nat.mul_mod_right k _
        have h2 : (n + 1) / k = n / k + 1 := by
          have he : n + 1 = k * (n / k + 1) := by
            rw [Nat.mul_succ]; omega
          rw [he, Nat.mul_div_cancel_left _ hk]
        rw [h1, h2]
      · rw [if_neg h]
        have hr : n % k < k := Nat.mod_lt _ hk
        have he : n + 1 = (n % k + 1) + k * (n / k) := by omega
        have h1 : (n + 1) % k = n % k + 1 := by
          rw [he, Nat.add_mul_mod_self_left, Nat.mod_eq_of_lt (by omega)]
        have h2 : (n + 1) / k = n / k := by
          rw [he, Nat.add_mul_div_left _ _ hk,
            Nat.div_eq_of_lt (by omega), Nat.zero_add]
        rw [h1, h2]

/-- The Mathlib view of a 2×2 sample determines the sample. -/
theorem toM2_inj {A B : Mat2 ℚ} (h : toM2 A = toM2 B) : A = B := by
  obtain ⟨a, b, c, d⟩ := A
  obtain ⟨a', b', c', d'⟩ := B
  have hf := Matrix.ext_iff.mpr h
  simp only [Mat2.mk.injEq]
  exact ⟨by simpa [toM2] using hf 0 0, by simpa [toM2] using hf 0 1,
    by simpa [toM2] using hf 1 0, by simpa [toM2] using hf 1 1⟩

/-- The Mathlib view of a 3×3 sample determines the sample. -/
theorem toM3_inj {A B : Mat3 ℚ} (h : toM3 A = toM3 B) : A = B := by
  obtain ⟨a, b, c, d, e, f, g, p, q⟩ := A
  obtain ⟨a', b', c', d', e', f', g', p', q'⟩ := B
  have hf := Matrix.ext_iff.mpr h
  simp only [Mat3.mk.injEq]
  refine ⟨by simpa [toM3] using hf 0 0, by simpa [toM3] using hf 0 1,
    by simpa [toM3] using hf 0 2, by simpa [toM3] using hf 1 0,
    by simpa [toM3] using hf 1 1, by simpa [toM3] using hf 1 2,
    by simpa [toM3] using hf 2 0, by simpa [toM3] using hf 2 1,
    by simpa [toM3] using hf 2 2⟩

/-- The source's 2×2 determinant agrees with Mathlib's. -/
theorem toM2_det (A : Mat2 ℚ) : (toM2 A).det = det_2x2 A := by
  simp [toM2, Matrix.det_fin_two_of, det_2x2]

/-- The source's first-row cofactor expansion agrees with Mathlib's
3×3 determinant. -/
theorem toM3_det (A : Mat3 ℚ) : (toM3 A).det = det_3x3_src A := by
  obtain ⟨a, b, c, d, e, f, g, p, q⟩ := A
  simp [toM3, Matrix.det_fin_three, det_3x3_src, det_2x2, minor]
  ring

/-- `invert_2x2` computes the Mathlib nonsingular inverse. -/
theorem toM2_invert (A : Mat2 ℚ) (h : det_2x2 A ≠ 0) :
    toM2 (invert_2x2 A) = (toM2 A)⁻¹ := by
  obtain ⟨a, b, c, d⟩ := A
  simp only [det_2x2] at h
  simp only [toM2, invert_2x2, det_2x2]
  rw [Matrix.inv_def, Matrix.adjugate_fin_two_of, Matrix.det_fin_two_of,
    Ring.inverse_eq_inv]
  ext i j
  fin_cases i <;> fin_cases j <;>
    simp [Matrix.smul_apply] <;> field_simp

/-- `invert_3x3` computes the Mathlib nonsingular inverse. -/
theorem toM3_invert (A : Mat3 ℚ) (h : det_3x3_src A ≠ 0) :
    toM3 (invert_3x3 A) = (toM3 A)⁻¹ := by
  obtain ⟨a, b, c, d, e, f, g, p, q⟩ := A
  simp only [det_3x3_src, det_2x2, minor] at h
  simp only [toM3, invert_3x3, det_2x2, minor]
  rw [Matrix.inv_def, Matrix.adjugate_fin_three_of, Matrix.det_fin_three,
    Ring.inverse_eq_inv]
  ext i j
  fin_cases i <;> fin_cases j <;>
    simp [Matrix.smul_apply] <;> field_simp <;> ring

/-- The determinant of an `invert_2x2` output is nonzero when the input
was nonsingular. -/
theorem det_2x2_invert (A : Mat2 ℚ) (h : det_2x2 A ≠ 0) :
    det_2x2 (invert_2x2 A) ≠ 0 := by
  have h1 : (toM2 (invert_2x2 A)).det = ((toM2 A)⁻¹).det := by
    rw [toM2_invert A h]
  rw [toM2_det, Matrix.det_nonsing_inv, Ring.inverse_eq_inv, toM2_det] at h1
  rw [h1]
  exact inv_ne_zero h

/-- The determinant of an `invert_3x3` output is nonzero when the input
was nonsingular. -/
theorem det_3x3_invert (A : Mat3 ℚ) (h : det_3x3_src A ≠ 0) :
    det_3x3_src (invert_3x3 A) ≠ 0 := by
  have h1 : (toM3 (invert_3x3 A)).det = ((toM3 A)⁻¹).det := by
    rw [toM3_invert A h]
  rw [toM3_det, Matrix.det_nonsing_inv, Ring.inverse_eq_inv, toM3_det] at h1
  rw [h1]
  exact inv_ne_zero h

/-- `invert_2x2` is an involution on nonsingular samples. -/
theorem invert_2x2_involutive (A : Mat2 ℚ) (h : det_2x2 A ≠ 0) :
    invert_2x2 (invert_2x2 A) = A := by
  apply toM2_inj
  rw [toM2_invert _ (det_2x2_invert A h), toM2_invert A h,
    Matrix.nonsing_inv_nonsing_inv]
  rw [toM2_det]
  exact isUnit_iff_ne_zero.mpr h

/-- `invert_3x3` is an involution on nonsingular samples. -/
theorem invert_3x3_involutive (A : Mat3 ℚ) (h : det_3x3_src A ≠ 0) :
    invert_3x3 (invert_3x3 A) = A := by
  apply toM3_inj
  rw [toM3_invert _ (det_3x3_invert A h), toM3_invert A h,
    Matrix.nonsing_inv_nonsing_inv]
  rw [toM3_det]
  exact isUnit_iff_ne_zero.mpr h

/-- Matrix–vector products commute with 2-vector negation. -/
theorem matvec2_neg (A : Mat2 ℚ) (T : Vec2 ℚ) :
    matvec2 A (neg2 T) = neg2 (matvec2 A T) := by
  simp only [matvec2, neg2, Vec2.mk.injEq]
  constructor <;> ring

/-- Matrix–vector products commute with 3-vector negation. -/
theorem matvec3_neg (A : Mat3 ℚ) (T : Vec3 ℚ) :
    matvec3 A (neg3 T) = neg3 (matvec3 A T) := by
  simp only [matvec3, neg3, Vec3.mk.injEq]
  refine ⟨by ring, by ring, by ring⟩

/-- 2-vector negation is an involution. -/
theorem neg2_neg2 (T : Vec2 ℚ) : neg2 (neg2 T) = T := by
  simp [neg2]

/-- 3-vector negation is an involution. -/
theorem neg3_neg3 (T : Vec3 ℚ) : neg3 (neg3 T) = T := by
  simp [neg3]

/-- The Mathlib view of a 2-vector determines it. -/
theorem toV2_inj {S T : Vec2 ℚ} (h : toV2 S = toV2 T) : S = T := by
  obtain ⟨s0, s1⟩ := S
  obtain ⟨t0, t1⟩ := T
  simp only [Vec2.mk.injEq]
  exact ⟨by simpa [toV2] using congrFun h 0,
    by simpa [toV2] using congrFun h 1⟩

/-- The Mathlib view of a 3-vector determines it. -/
theorem toV3_inj {S T : Vec3 ℚ} (h : toV3 S = toV3 T) : S = T := by
  obtain ⟨s0, s1, s2⟩ := S
  obtain ⟨t0, t1, t2⟩ := T
  simp only [Vec3.mk.injEq]
  exact ⟨by simpa [toV3] using congrFun h 0,
    by simpa [toV3] using congrFun h 1,
    by simpa [toV3] using congrFun h 2⟩

/-- `matvec2` is Mathlib's matrix–vector product. -/
theorem toV2_matvec (A : Mat2 ℚ) (T : Vec2 ℚ) :
    toV2 (matvec2 A T) = (toM2 A).mulVec (toV2 T) := by
  funext i
  fin_cases i <;>
    simp [toV2, toM2, matvec2, Matrix.mulVec, Matrix.dotProduct,
      Fin.sum_univ_two]

/-- `matvec3` is Mathlib's matrix–vector product. -/
theorem toV3_matvec (A : Mat3 ℚ) (T : Vec3 ℚ) :
    toV3 (matvec3 A T) = (toM3 A).mulVec (toV3 T) := by
  funext i
  fin_cases i <;>
    simp [toV3, toM3, matvec3, Matrix.mulVec, Matrix.dotProduct,
      Fin.sum_univ_three]

/-- Applying a nonsingular 2×2 sample after its `invert_2x2` inverse
is the identity on vectors. -/
theorem matvec2_invert_cancel (A : Mat2 ℚ) (T : Vec2 ℚ)
    (h : det_2x2 A ≠ 0) :
    matvec2 A (matvec2 (invert_2x2 A) T) = T := by
  apply toV2_inj
  rw [toV2_matvec, toV2_matvec, Matrix.mulVec_mulVec, toM2_invert A h,
    Matrix.mul_nonsing_inv, Matrix.one_mulVec]
  rw [toM2_det]
  exact isUnit_iff_ne_zero.mpr h

/-- Applying a nonsingular 3×3 sample after its `invert_3x3` inverse
is the identity on vectors. -/
theorem matvec3_invert_cancel (A : Mat3 ℚ) (T : Vec3 ℚ)
    (h : det_3x3_src A ≠ 0) :
    matvec3 A (matvec3 (invert_3x3 A) T) = T := by
  apply toV3_inj
  rw [toV3_matvec, toV3_matvec, Matrix.mulVec_mulVec, toM3_invert A h,
    Matrix.mul_nonsing_inv, Matrix.one_mulVec]
  rw [toM3_det]
  exact isUnit_iff_ne_zero.mpr h

/-- `affine_inverse` is an involution on one nonsingular sample. -/
theorem affine_inverse_involutive_pair (p : AffinePair)
    (h : p.det ≠ 0) : affine_inverse (affine_inverse p) = p := by
  cases p with
  | d2 A T =>
      simp only [AffinePair.det] at h
      simp only [affine_inverse, AffinePair.d2.injEq]
      refine ⟨invert_2x2_involutive A h, ?_⟩
      rw [invert_2x2_involutive A h, matvec2_neg, neg2_neg2,
        matvec2_invert_cancel A T h]
  | d3 A T =>
      simp only [AffinePair.det] at h
      simp only [affine_inverse, AffinePair.d3.injEq]
      refine ⟨invert_3x3_involutive A h, ?_⟩
      rw [invert_3x3_involutive A h, matvec3_neg, neg3_neg3,
        matvec3_invert_cancel A T h]

/-! ## Claims -/

/-- C1: the spec's streaming mean maintains
`mean ← mean·(S/(S+n_i)) + batch_sum/(S+n_i)` with `S` starting at 0, so
the two-batch stream `[(n=2, sum=[4,6]), (n=3, sum=[9,12])]` should give
`[2.6, 3.6]`.  The code instead installs the raw first-batch *sum* as
the initial mean (affine/__init__.py:25), so on that stream it returns
`[4·(2/5)+9/5, 6·(2/5)+12/5] = [3.4, 4.8]`, not the claimed mean, which
`stream_mean` computes from the same stream. -/
theorem batch_average_first_batch_unnormalized :
    batch_average [[[2, 3], [2, 3]], [[3, 4], [3, 4], [3, 4]]]
        = some [17/5, 24/5]
      ∧ stream_mean [[[2, 3], [2, 3]], [[3, 4], [3, 4], [3, 4]]]
        = [13/5, 18/5]
      ∧ batch_average [[[2, 3], [2, 3]], [[3, 4], [3, 4], [3, 4]]]
        ≠ some [13/5, 18/5] := by
  refine ⟨?_, ?_, ?_⟩
  · norm_num [batch_average, batch_average_step, batch_sum, vec_add]
  · norm_num [stream_mean, batch_sum, vec_add]
  · norm_num [batch_average, batch_average_step, batch_sum, vec_add]

/-- C2 counterexample: for input size 5 and `shape=(10,)`, the resolved
spacing is `(5-1)/(10-1) = 4/9`, not the claimed `(10-1)/(5-1) = 9/4`
(the origin `2.0` is as claimed). -/
theorem regrid_shape_only_spacing_counterexample :
    regrid_resolve [5] (some [10]) none none = .ok ([10], [2], [4/9])
      ∧ ((4 : ℚ) / 9) ≠ 9 / 4 := by
  refine ⟨?_, by norm_num⟩
  norm_num [regrid_resolve, regrid_check]

/-- C2 (amended): with only `shape` given, `regrid` resolves the origin
per axis as `(in_size-1)/2` and the spacing per axis as
`(in_size-1)/(out_size-1)` (affine/__init__.py:246–249); with
`shape=(10,)` and input size 5 that is origin `2.0` and spacing `4/9`. -/
theorem regrid_shape_only_resolution (inshape outshape : List ℕ)
    (h : outshape.length = inshape.length) :
    regrid_resolve inshape (some outshape) none none =
      .ok (outshape,
        inshape.map (fun (s : ℕ) => ((s : ℚ) - 1) / 2),
        List.zipWith (fun (sI s : ℕ) => ((sI : ℚ) - 1) / ((s : ℚ) - 1))
          inshape outshape) := by
  simp only [regrid_resolve, regrid_check]
  rw [if_pos]
  · simp only [Except.ok.injEq, Prod.mk.injEq]
    refine ⟨trivial, ?_, trivial⟩
    refine List.map_congr_left ?_
    intro a _
    rw [mul_one_div]
  · refine ⟨h, by simp, ?_⟩
    rw [List.length_zipWith, h, min_self]

/-- C2 witness: the amended resolution rule at input size 5,
`shape=(10,)`. -/
theorem regrid_shape_only_resolution_witness :
    regrid_resolve [5] (some [10]) none none = .ok ([10], [2], [4/9]) := by
  have h := regrid_shape_only_resolution [5] [10] (by decide)
  norm_num at h
  exact h

/-- C3: the claim says `composeHV` with `displacement=False` samples `h`
at `x + dt·v` with no additive correction — which is also what the
docstring of `composeHV` intends.  The code's `else` branch
(deform.py:184) reads the local variable `xv` that only the
`displacement` branch assigns, so every such call raises
`UnboundLocalError` instead of sampling anything. -/
theorem composeHV_position_convention_raises
    (sample : Field → Field → Field) (σ : Store) (ih iv : ℕ) (dt : ℚ) :
    composeHV sample σ ih iv dt false =
      .error "UnboundLocalError: local variable xv referenced before assignment" := rfl

/-- C4: the claim says both broadcast directions succeed.  Broadcasting
one image over many deformations does dispatch to the `bcastI` 2D
kernel, and matched non-unit batches dispatch to the plain kernel, with
mismatched non-unit batches rejected; but the reverse broadcast (one
deformation, many images) calls the undefined name
`interp_image_kernel_bcasth` (deform.py:111) and raises `NameError`. -/
theorem interp_image_broadcast_dispatch :
    interp_image [1, 5, 5] [3, 2, 5, 5] = .ok .bcastIKernel
      ∧ interp_image [3, 5, 5] [1, 2, 5, 5]
        = .error "NameError: name interp_image_kernel_bcasth is not defined"
      ∧ interp_image [3, 5, 5] [4, 2, 5, 5]
        = .error "AssertionError: Number non-broadcast image and deformation dimensions must match"
      ∧ interp_image [3, 5, 5] [3, 2, 5, 5] = .ok .plainKernel := by
  refine ⟨rfl, rfl, rfl, rfl⟩

/-- C9: per epoch over `M ≥ 1` minibatches, `affine_atlas` with
`image_update_freq = 0` runs exactly one atlas-optimizer step, and with
`image_update_freq = k > 0` it runs `⌊M/k⌋` steps in the loop plus one
final step exactly when `M mod k ≠ 0`. -/
theorem affine_atlas_image_update_steps (M k : ℕ) :
    (k = 0 → 0 < M → atlas_steps_per_epoch M 0 = 1)
      ∧ (0 < k → atlas_steps_per_epoch M k
          = M / k + if M % k = 0 then 0 else 1) := by
  constructor
  · intro _ hM
    unfold atlas_steps_per_epoch
    rw [atlas_epoch_loop_zero_freq]
    simp [hM]
  · intro hk
    unfold atlas_steps_per_epoch
    rw [atlas_epoch_loop_pos_freq M k hk]
    show (if 0 < M % k then M / k + 1 else M / k)
        = M / k + if M % k = 0 then 0 else 1
    by_cases h : M % k = 0
    · simp [h]
    · rw [if_pos (by omega), if_neg h]

/-- C9 witness: five minibatches at frequency 0 give one step; seven
minibatches at frequency 3 give `⌊7/3⌋ = 2` steps plus a final flush. -/
theorem affine_atlas_image_update_steps_witness :
    atlas_steps_per_epoch 5 0 = 1 ∧ atlas_steps_per_epoch 7 3 = 3 := by
  constructor
  · exact (affine_atlas_image_update_steps 5 0).1 rfl (by decide)
  · have h := (affine_atlas_image_update_steps 7 3).2 (by decide)
    norm_num at h
    exact h

/-- C10: `composeHV` with `displacement=True` and no caller-supplied
output buffer writes only the two freshly allocated buffers (the output
and the scaled copy of `v`): the buffers holding `h` and `v` are
unchanged in the final store, the returned index is the fresh
allocation past the original store, and only two allocations happen. -/
theorem composeHV_displacement_frame
    (sample : Field → Field → Field) (σ : Store) (ih iv : ℕ) (dt : ℚ)
    (hih : ih < σ.length) (hiv : iv < σ.length) :
    ∃ σf, composeHV sample σ ih iv dt true = .ok (σf, σ.length)
      ∧ σf.getD ih [] = σ.getD ih []
      ∧ σf.getD iv [] = σ.getD iv []
      ∧ σf.length = σ.length + 2 := by
  simp only [composeHV, if_pos]
  refine ⟨_, rfl, ?_, ?_, ?_⟩
  · rw [store_getD_set_ne _ _ _ _ (by simp; omega),
      store_getD_set_ne _ _ _ _ (by simp; omega),
      store_getD_set_ne _ _ _ _ (by simp; omega),
      store_getD_append _ _ _ (by simp; omega),
      store_getD_append _ _ _ hih]
  · rw [store_getD_set_ne _ _ _ _ (by simp; omega),
      store_getD_set_ne _ _ _ _ (by simp; omega),
      store_getD_set_ne _ _ _ _ (by simp; omega),
      store_getD_append _ _ _ (by simp; omega),
      store_getD_append _ _ _ hiv]
  · simp

/-- C10 witness: a concrete two-buffer store, composed through a sampler
that returns its first argument. -/
theorem composeHV_displacement_frame_witness :
    ∃ σf, composeHV (fun a _ => a) [[(1 : ℚ)], [2]] 0 1 (2 : ℚ) true
        = .ok (σf, 2)
      ∧ σf.getD 0 [] = [[(1 : ℚ)], [2]].getD 0 []
      ∧ σf.getD 1 [] = [[(1 : ℚ)], [2]].getD 1 []
      ∧ σf.length = 4 := by
  have h := composeHV_displacement_frame (fun a _ => a)
    [[(1 : ℚ)], [2]] 0 1 (2 : ℚ) (by decide) (by decide)
  simpa using h

/-- C8: with `displacement=True`, `RegridFunction.forward` multiplies
entry `i` of spatial-axis channel `d` of the kernel's resampled output
by `1/spacing[d]`, and `RegridFunction.backward` multiplies the
corresponding entry of the kernel's gradient by exactly the same
per-axis factor. -/
theorem RegridFunction_displacement_scaling_mirrored
    (dim : ℕ) (spacing : List ℚ) (reg g : List (List ℚ)) (d i : ℕ)
    (hd : d < spacing.length) (hdr : d < reg.length) (hdg : d < g.length) :
    ∃ out, RegridFunction_forward dim dim reg spacing true = .ok out
      ∧ (out.getD d []).getD i 0
          = 1 / spacing.getD d 1 * ((reg.getD d []).getD i 0)
      ∧ ((RegridFunction_backward g spacing true).getD d []).getD i 0
          = 1 / spacing.getD d 1 * ((g.getD d []).getD i 0) := by
  have hok : RegridFunction_forward dim dim reg spacing true
      = .ok (mul_channelwise (spacing_tensor spacing) reg) := by
    simp [RegridFunction_forward]
  refine ⟨_, hok, ?_, ?_⟩
  · rw [mul_channelwise_getD _ _ _ _ (by simpa [spacing_tensor] using hd) hdr]
    congr 1
    unfold spacing_tensor
    rw [List.getD_eq_getElem?_getD, List.getElem?_map,
      List.getElem?_eq_getElem hd]
    simp [List.getD_eq_getElem?_getD, List.getElem?_eq_getElem hd]
  · have hbw : RegridFunction_backward g spacing true
        = mul_channelwise (spacing_tensor spacing) g := by
      simp [RegridFunction_backward]
    rw [hbw,
      mul_channelwise_getD _ _ _ _ (by simpa [spacing_tensor] using hd) hdg]
    congr 1
    unfold spacing_tensor
    rw [List.getD_eq_getElem?_getD, List.getElem?_map,
      List.getElem?_eq_getElem hd]
    simp [List.getD_eq_getElem?_getD, List.getElem?_eq_getElem hd]

/-- C8 witness: one axis with resolved spacing `4/9`: both directions
scale by `9/4`. -/
theorem RegridFunction_displacement_scaling_mirrored_witness :
    ∃ out, RegridFunction_forward 1 1 [[(1 : ℚ), 2]] [4/9] true = .ok out
      ∧ (out.getD 0 []).getD 1 0
          = 1 / ([(4 : ℚ)/9].getD 0 1) * (([[(1 : ℚ), 2]].getD 0 []).getD 1 0)
      ∧ ((RegridFunction_backward [[(3 : ℚ)]] [4/9] true).getD 0 []).getD 1 0
          = 1 / ([(4 : ℚ)/9].getD 0 1) * (([[(3 : ℚ)]].getD 0 []).getD 1 0) := by
  exact RegridFunction_displacement_scaling_mirrored 1 [4/9] [[(1 : ℚ), 2]]
    [[(3 : ℚ)]] 0 1 (by decide) (by decide) (by decide)

/-- C5: for every batch of invertible affine samples of dimension 2 or
3, applying `affine_inverse` twice returns the original batch of
`(A, T)` pairs, exactly over `ℚ` (so within floating tolerance in the
float implementation). -/
theorem invert_affine_involution (ps : List AffinePair)
    (h : ∀ p ∈ ps, p.det ≠ 0) :
    affine_inverse_batch (affine_inverse_batch ps) = ps := by
  unfold affine_inverse_batch
  rw [List.map_map]
  have hid : ∀ p ∈ ps, (affine_inverse ∘ affine_inverse) p = id p :=
    fun p hp => affine_inverse_involutive_pair p (h p hp)
  rw [List.map_congr_left hid, List.map_id]

/-- C5 witness: a mixed batch with one invertible 2×2 pair and one
invertible 3×3 pair. -/
theorem invert_affine_involution_witness :
    affine_inverse_batch (affine_inverse_batch
        [AffinePair.d2 ⟨1, 2, 3, 4⟩ ⟨5, 6⟩,
         AffinePair.d3 ⟨2, 0, 0, 0, 4, 0, 0, 0, 5⟩ ⟨1, 2, 3⟩])
      = [AffinePair.d2 ⟨1, 2, 3, 4⟩ ⟨5, 6⟩,
         AffinePair.d3 ⟨2, 0, 0, 0, 4, 0, 0, 0, 5⟩ ⟨1, 2, 3⟩] := by
  apply invert_affine_involution
  intro p hp
  simp only [List.mem_cons, List.not_mem_nil, or_false] at hp
  rcases hp with rfl | rfl
  · norm_num [AffinePair.det, det_2x2]
  · norm_num [AffinePair.det, det_3x3_src, det_2x2, minor]

/-- C6: batchwise (independently per sample), `invert_3x3` returns the
transpose of the spec's cofactor matrix divided by the (Leibniz)
determinant, and on the diagonal matrix `diag(2,4,5)` it returns
`diag(1/2, 1/4, 1/5)`. -/
theorem invert_3x3_refines_spec :
    (∀ As : List (Mat3 ℚ), invert_3x3_batch As = As.map invert_3x3_spec)
      ∧ invert_3x3 ⟨2, 0, 0, 0, 4, 0, 0, 0, 5⟩
        = ⟨1/2, 0, 0, 0, 1/4, 0, 0, 0, 1/5⟩ := by
  constructor
  · intro As
    unfold invert_3x3_batch
    refine List.map_congr_left ?_
    intro A _
    obtain ⟨a, b, c, d, e, f, g, p, q⟩ := A
    simp only [invert_3x3, invert_3x3_spec, cofactor_spec, det3_leibniz,
      det_2x2, minor, Mat3.mk.injEq]
    norm_num
    refine ⟨?_, ?_, ?_, ?_, ?_, ?_, ?_, ?_, ?_⟩ <;> ring
  · norm_num [invert_3x3, det_2x2, minor]

/-- C7: every matrix in a batch produced by the 2D branch of
`rotation_exp_map` is orthogonal (`Rᵀ·R = I`), and the zero angle maps
to the identity matrix. -/
theorem rotation_exp_map_orthogonal (vs : List ℝ) (R : Mat2 ℝ)
    (hR : R ∈ rotation_exp_map_batch vs) :
    mat2_mul (mat2_transpose R) R = mat2_id
      ∧ rotation_exp_map 0 = mat2_id := by
  constructor
  · obtain ⟨v, _, rfl⟩ := List.mem_map.mp hR
    simp only [rotation_exp_map, mat2_transpose, mat2_mul, mat2_id,
      Mat2.mk.injEq]
    refine ⟨?_, ?_, ?_, ?_⟩ <;> nlinarith [Real.sin_sq_add_cos_sq v]
  · simp [rotation_exp_map, mat2_id]

/-- C7 witness: the batch containing only the zero angle. -/
theorem rotation_exp_map_orthogonal_witness :
    mat2_mul (mat2_transpose (rotation_exp_map 0)) (rotation_exp_map 0)
        = mat2_id
      ∧ rotation_exp_map 0 = mat2_id := by
  exact rotation_exp_map_orthogonal [0] (rotation_exp_map 0)
    (by simp [rotation_exp_map_batch])
end Lagomorph
